import Mathlib

/-!
Verification development for `src/data/extract_checklists.py` of the
alertsimulator repository: a line-oriented parser that turns a
semi-structured checklist document into a list of checklist trees.

The Python source is shallowly embedded: each regular expression of the
source is translated into an executable matcher over `List Char`
(replicating Python `re` backtracking semantics for the concrete patterns
used), the mutable scan loop becomes explicit state passing over a
`ScanState`, and per-step tree insertion becomes a pure function returning
the updated tree.  Python `Optional[str]` cells become `Option (List Char)`;
Python truthiness of such cells (`if pending_cas or ...`) is modelled by
`truthy`.  The opaque random `id` fields (uuid4) are omitted: no claim and
no observable structure depends on them.
-/

namespace AlertSim

/-- Characters matched by Python's regex `\s` (ASCII range), and stripped
by `str.strip`/`str.rstrip`: space, tab, newline, carriage return,
vertical tab, form feed. -/
def pySpace (c : Char) : Bool :=
  c.toNat = 32 || c.toNat = 9 || c.toNat = 10 || c.toNat = 13 ||
  c.toNat = 11 || c.toNat = 12

/-- Regex class `[A-Z]`. -/
def isUpperAZ (c : Char) : Bool := 65 ≤ c.toNat && c.toNat ≤ 90

/-- Regex class `[a-z]`. -/
def isLowerAZ (c : Char) : Bool := 97 ≤ c.toNat && c.toNat ≤ 122

/-- Regex class `\d` = `[0-9]`. -/
def isDigit09 (c : Char) : Bool := 48 ≤ c.toNat && c.toNat ≤ 57

/-- Regex class `[A-Z0-9 ]` used by the section and CAS patterns. -/
def casClass (c : Char) : Bool := isUpperAZ c || isDigit09 c || c.toNat = 32

/-- The character list of a string literal. -/
def strL (s : String) : List Char := s.data

/-- Python `str.rstrip()` (trailing whitespace removed). -/
def rstripL (l : List Char) : List Char := (l.reverse.dropWhile pySpace).reverse

/-- Python `str.strip()` (leading and trailing whitespace removed). -/
def stripL (l : List Char) : List Char := (rstripL l).dropWhile pySpace

/-- The scanned form of line `i`: Python `lines[i].rstrip()` (out-of-range
reads, which the loop never performs, default to the empty line). -/
def lineAt (lines : List (List Char)) (i : Nat) : List Char :=
  rstripL (lines.getD i [])

/-- The fully stripped form of line `i`: Python `lines[i].strip()`, used
by the CAS branch lookahead. -/
def stripAt (lines : List (List Char)) (i : Nat) : List Char :=
  stripL (lines.getD i [])

/-- ASCII lower-casing of one character, as Python `str.lower` acts on
the characters occurring here. -/
def toLowerAZ (c : Char) : Char :=
  if isUpperAZ c then Char.ofNat (c.toNat + 32) else c

/-- Python `str.lower()`. -/
def lowerL (l : List Char) : List Char := l.map toLowerAZ

/-- Split at the first occurrence of `pat`: `some (before, after)` when
`pat` occurs as a substring, scanning left to right. -/
def splitOnce (pat : List Char) : List Char → Option (List Char × List Char)
  | [] => if pat.isPrefixOf ([] : List Char) then some ([], []) else none
  | c :: t =>
    if pat.isPrefixOf (c :: t) then some ([], (c :: t).drop pat.length)
    else (splitOnce pat t).map (fun p => (c :: p.1, p.2))

/-- Python substring test `pat in l`. -/
def containsSub (pat l : List Char) : Bool := (splitOnce pat l).isSome

/-- Python `l.split(pat)` restricted to the first two parts
(`parts[0]`, `parts[1]`); when the separator does not occur the second
component is `[]` (the source only reads `parts[1]` after checking that
the separator occurs, so that default is never observable). -/
def splitParts (pat l : List Char) : List Char × List Char :=
  match splitOnce pat l with
  | none => (l, [])
  | some (a, rest) =>
    match splitOnce pat rest with
    | some (b, _) => (a, b)
    | none => (a, rest)

/-- Python `s.startswith((p₁, …, pₙ))`. -/
def startsWithAny (l : List Char) (pats : List (List Char)) : Bool :=
  pats.any (fun p => p.isPrefixOf l)

/-! ### Line matchers (one per regex of the source)

`section_pattern = ^#([A-Z][A-Z0-9 ]+)$` -/

/-- Matcher for `section_pattern`; returns group 1. -/
def sectionMatch (l : List Char) : Option (List Char) :=
  match l with
  | c0 :: c :: rest =>
    if c0 = '#' && isUpperAZ c && rest ≠ [] && rest.all casClass then
      some (c :: rest)
    else none
  | _ => none

/-- Matcher for `subsection_pattern = ^##([A-Z].+)$`; returns group 1. -/
def subsectionMatch (l : List Char) : Option (List Char) :=
  match l with
  | c0 :: c1 :: c :: rest =>
    if c0 = '#' && c1 = '#' && isUpperAZ c && rest ≠ [] then some (c :: rest)
    else none
  | _ => none

/-- Matcher for `checklist_pattern = ^###(.+)$`; returns group 1. -/
def checklistMatch (l : List Char) : Option (List Char) :=
  match l with
  | c0 :: c1 :: c2 :: rest =>
    if c0 = '#' && c1 = '#' && c2 = '#' && rest ≠ [] then some rest else none
  | _ => none

/-- Matcher for `pfd_alert_pattern = ^PFD Alerts Window: [""]([^""]+)[""]$`
(the bracketed classes contain just the ASCII double quote); returns
group 1, the non-empty quote-free text between the two quotes. -/
def pfdMatch (l : List Char) : Option (List Char) :=
  if (strL "PFD Alerts Window: ").isPrefixOf l then
    match l.drop 19 with
    | '"' :: rest =>
      match rest.reverse with
      | '"' :: bodyRev =>
        let body := bodyRev.reverse
        if body ≠ [] && body.all (fun c => c ≠ '"') then some body else none
      | _ => none
    | _ => none
  else none

/-! Matcher for
`item_pattern = ^(\s*)(?:(\d+)\.|\((\d+)\)|([a-z])\.)\s+(.+?)(?:\.\.\.\s*(.+))?$`. -/

/-- The three numbering alternatives of the step-item regex: group 2
(`(\d+)\.`), group 3 (`\((\d+)\)`), group 4 (`([a-z])\.`). -/
inductive NumForm where
  | digits (ds : List Char)
  | paren (ds : List Char)
  | letter (c : Char)
deriving Repr, DecidableEq

/-- The captures of a successful step-item match. -/
structure ItemRes where
  indent : List Char
  num : NumForm
  content : List Char
  action : Option (List Char)
deriving Repr, DecidableEq

/-- `(\d+)\.` branch: the maximal digit run must be followed by `'.'`
(a shorter run would end before a digit, which is not `'.'`). -/
def parseNumDigits (c : Char) (t : List Char) : Option (NumForm × List Char) :=
  let ds := (c :: t).takeWhile isDigit09
  match (c :: t).drop ds.length with
  | '.' :: r => some (.digits ds, r)
  | _ => none

/-- `\((\d+)\)` branch. -/
def parseNumParen (t : List Char) : Option (NumForm × List Char) :=
  let ds := t.takeWhile isDigit09
  if ds = [] then none
  else
    match t.drop ds.length with
    | ')' :: r => some (.paren ds, r)
    | _ => none

/-- `([a-z])\.` branch. -/
def parseNumLetter (c : Char) (t : List Char) : Option (NumForm × List Char) :=
  match t with
  | '.' :: r => some (.letter c, r)
  | _ => none

/-- The numbering alternation of the step-item regex.  The three
alternatives start with a digit, `'('` and a lowercase letter
respectively, so at most one can apply; regex alternative order is
therefore immaterial. -/
def parseNum (l : List Char) : Option (NumForm × List Char) :=
  match l with
  | [] => none
  | c :: t =>
    if isDigit09 c then parseNumDigits c t
    else if c = '(' then parseNumParen t
    else if isLowerAZ c then parseNumLetter c t
    else none

/-- Scan for the lazy split of `(.+?)(?:\.\.\.\s*(.+))?$`: the first
position (≥ 1 characters consumed by the caller) where `...` occurs with
at least one character after it.  Returns the text before the dots and
the text after them. -/
def findDotsAux : List Char → Option (List Char × List Char)
  | [] => none
  | c :: t =>
    if (strL "...").isPrefixOf (c :: t) && (c :: t).drop 3 ≠ [] then
      some ([], (c :: t).drop 3)
    else (findDotsAux t).map (fun p => (c :: p.1, p.2))

/-- `(.+?)(?:\.\.\.\s*(.+))?$` on a non-empty remainder `r`: content is
the shortest non-empty prefix after which either the `...`-group matches
(with a non-empty tail) or the string ends. -/
def splitContent (r : List Char) : List Char × Option (List Char) :=
  match r with
  | [] => ([], none)
  | x :: t =>
    match findDotsAux t with
    | some (a, after) =>
      -- `\s*` is greedy but `(.+)` needs one character: when everything
      -- after the dots is whitespace the action group is the last char.
      let d := after.dropWhile pySpace
      (x :: a, some (if d = [] then after.drop (after.length - 1) else d))
    | none => (x :: t, none)

/-- Matcher for `item_pattern`.  `(\s*)` can only end at the first
non-whitespace character, and the greedy `\s+` after the numbering token
backtracks by one character exactly when everything after the token is
whitespace (then the content group captures a single whitespace
character and there is no action group). -/
def itemMatch (l : List Char) : Option ItemRes :=
  let ws := l.takeWhile pySpace
  let rest := l.dropWhile pySpace
  match parseNum rest with
  | none => none
  | some (nf, rest2) =>
    let w := rest2.takeWhile pySpace
    let r := rest2.dropWhile pySpace
    if w = [] then none
    else if r ≠ [] then
      let (content, action) := splitContent r
      some ⟨ws, nf, content, action⟩
    else if 2 ≤ w.length then
      some ⟨ws, nf, w.drop (w.length - 1), none⟩
    else none

/-! Matcher for
`cas_message_line_pattern = ^([A-Z][A-Z0-9 ]+)(?:\s+Caution|Advisory)?$`. -/

/-- Valid remainders after group 1 of the CAS line pattern: the empty
string, `Advisory`, or one-or-more whitespace characters followed by
`Caution`. -/
def casTailOk (t : List Char) : Bool :=
  t = [] || t = strL "Advisory" ||
  (t.takeWhile pySpace ≠ [] && t.dropWhile pySpace = strL "Caution")

/-- Backtracking search for group 1 of the CAS line pattern: try the
longest candidate first (greedy `[A-Z0-9 ]+`), shrinking until the
remainder is a valid tail; group 1 needs at least 2 characters. -/
def casSearch (l : List Char) : Nat → Option (List Char)
  | 0 => none
  | 1 => none
  | (k + 2) =>
    if casTailOk (l.drop (k + 2)) then some (l.take (k + 2))
    else casSearch l (k + 1)

/-- Matcher for `cas_message_line_pattern`; returns group 1. -/
def casLineMatch (l : List Char) : Option (List Char) :=
  match l with
  | [] => none
  | c :: t =>
    if isUpperAZ c then casSearch l (1 + (t.takeWhile casClass).length)
    else none

/-! ### Data model (`ChecklistStep`, `Checklist` dataclasses) -/

/-- `ChecklistStep` dataclass (the uuid `id` field is omitted). -/
inductive Step where
  | mk (instruction : List Char) (action : List Char) (isConditional : Bool)
       (indentLevel : Nat) (stepNumber : Option (List Char)) (subSteps : List Step)
deriving Repr

def Step.instruction : Step → List Char
  | .mk v _ _ _ _ _ => v

def Step.action : Step → List Char
  | .mk _ v _ _ _ _ => v

def Step.isConditional : Step → Bool
  | .mk _ _ v _ _ _ => v

def Step.indentLevel : Step → Nat
  | .mk _ _ _ v _ _ => v

def Step.stepNumber : Step → Option (List Char)
  | .mk _ _ _ _ v _ => v

def Step.subSteps : Step → List Step
  | .mk _ _ _ _ _ v => v

/-- `Checklist` dataclass (the uuid `id` field is omitted). -/
structure Checklist where
  title : List Char
  sectionName : List Char
  subsection : Option (List Char)
  cas : Option (List Char) := none
  casType : Option (List Char) := none
  casDescription : Option (List Char) := none
  alertMessage : Option (List Char) := none
  steps : List Step := []
deriving Repr

/-- The local mutable variables of `parse_checklist`, as one state
record threaded through the scan. -/
structure ScanState where
  checklists : List Checklist
  current : Option Checklist
  curSection : Option (List Char)
  curSubsection : Option (List Char)
  pendingCas : Option (List Char)
  pendingCasType : Option (List Char)
  pendingCasDescription : Option (List Char)
  pendingPfd : Option (List Char)
deriving Repr

def initState : ScanState := ⟨[], none, none, none, none, none, none, none⟩

/-- Python truthiness of an `Optional[str]` cell: `None` and `""` are
falsy. -/
def truthy : Option (List Char) → Bool
  | some s => s ≠ []
  | none => false

/-! ### Hierarchy builder (`find_parent_and_add_step`,
`add_step_to_hierarchy`); mutation becomes returning the updated tree,
`None`/`False` becomes `Option`. -/

mutual

/-- `find_parent_and_add_step`: attach `new` under the first node (in
reverse insertion order, depth first) whose `indent_level` is
`target - 1`.  The Python comparison `indent_level == target_indent - 1`
over ints is rendered as `indentLevel + 1 == target` (equivalent for all
integer targets, including `target = 0`). -/
def findParentAndAddStep (p : Step) (new : Step) (target : Nat) : Option Step :=
  match p with
  | .mk a b c lvl n subs =>
    if lvl + 1 == target then some (.mk a b c lvl n (subs ++ [new]))
    else
      match tryAddRevSteps subs new target with
      | some subs2 => some (.mk a b c lvl n subs2)
      | none => none

/-- The reverse-order loop over a list of (sibling) steps: the
most-recently-added element is tried first. -/
def tryAddRevSteps (l : List Step) (new : Step) (target : Nat) : Option (List Step) :=
  match l with
  | [] => none
  | x :: xs =>
    match tryAddRevSteps xs new target with
    | some xs2 => some (x :: xs2)
    | none =>
      match findParentAndAddStep x new target with
      | some x2 => some (x2 :: xs)
      | none => none

end

/-- `add_step_to_hierarchy`. -/
def addStepToHierarchy (c : Checklist) (new : Step) (indentLevel : Nat) : Checklist :=
  if indentLevel == 0 then { c with steps := c.steps ++ [new] }
  else if c.steps.isEmpty then { c with steps := c.steps ++ [new] }
  else
    match tryAddRevSteps c.steps new indentLevel with
    | some steps2 => { c with steps := steps2 }
    | none => { c with steps := c.steps ++ [new] }

/-! ### Continuation merger (lines 226–260 of the source) -/

/-- The lookahead break test of the continuation loop: the next line
starts a new pattern. -/
def isStructural (l : List Char) : Bool :=
  (sectionMatch l).isSome || (subsectionMatch l).isSome ||
  (checklistMatch l).isSome || (itemMatch l).isSome ||
  (casLineMatch l).isSome || (pfdMatch l).isSome

/-- Folding one continuation line into the step's instruction/action. -/
def foldContLine (instr act next : List Char) : List Char × List Char :=
  if containsSub (strL "...") next then
    let p := splitParts (strL "...") next
    let instr2 :=
      if instr ≠ [] && !containsSub (strL "...") instr then
        instr ++ ' ' :: stripL p.1
      else instr
    let act2 := if act ≠ [] then act ++ ' ' :: stripL p.2 else stripL p.2
    (instr2, act2)
  else (instr ++ ' ' :: stripL next, act)

/-- The continuation lookahead loop.  `j` is the lookahead cursor
(Python `j`); the returned `Nat` is the number of merged lines, i.e. the
total amount the source adds to the main cursor `i` (one per merged
line; skipped blank lines advance only `j`). -/
def mergeCont : Nat → List (List Char) → Nat → List Char → List Char →
    List Char × List Char × Nat
  | 0, _, _, instr, act => (instr, act, 0)
  | fuel + 1, lines, j, instr, act =>
    if j < lines.length then
      let next := lineAt lines j
      if next = [] then mergeCont fuel lines (j + 1) instr act
      else if isStructural next then (instr, act, 0)
      else
        let f := foldContLine instr act next
        let m := mergeCont fuel lines (j + 1) f.1 f.2
        (m.1, m.2.1, m.2.2 + 1)
    else (instr, act, 0)

/-- Fuel-driven search for the first structural line (the fuel makes the
function compute by structural recursion; `lines.length - j` fuel always
suffices). -/
def firstBreakAux (lines : List (List Char)) : Nat → Nat → Nat
  | 0, j => j
  | fuel + 1, j =>
    if j < lines.length then
      if isStructural (lineAt lines j) then j else firstBreakAux lines fuel (j + 1)
    else j

/-- The index of the first structural line at or after `j` (or
`lines.length` when there is none): where the source's lookahead break
occurs. -/
def firstBreak (lines : List (List Char)) (j : Nat) : Nat :=
  firstBreakAux lines (lines.length - j) j

lemma firstBreak_eq (lines : List (List Char)) (j : Nat) :
    firstBreak lines j =
      if j < lines.length then
        if isStructural (lineAt lines j) then j else firstBreak lines (j + 1)
      else j := by
  show firstBreakAux lines (lines.length - j) j = _
  cases h : lines.length - j with
  | zero =>
    have hj : ¬ j < lines.length := by omega
    simp only [firstBreakAux]
    rw [if_neg hj]
  | succ n =>
    have hj : j < lines.length := by omega
    simp only [firstBreakAux]
    rw [if_pos hj, if_pos hj]
    split
    · rfl
    · show _ = firstBreakAux lines (lines.length - (j + 1)) (j + 1)
      congr 1
      omega

/-- Fuel-driven count of non-blank lines. -/
def countNonBlankAux (lines : List (List Char)) : Nat → Nat → Nat → Nat
  | 0, _, _ => 0
  | fuel + 1, j, k =>
    if j < k then
      (if lineAt lines j = [] then 0 else 1) + countNonBlankAux lines fuel (j + 1) k
    else 0

/-- The number of indices in `[j, k)` holding a non-blank line. -/
def countNonBlank (lines : List (List Char)) (j k : Nat) : Nat :=
  countNonBlankAux lines (k - j) j k

lemma countNonBlank_eq (lines : List (List Char)) (j k : Nat) :
    countNonBlank lines j k =
      if j < k then
        (if lineAt lines j = [] then 0 else 1) + countNonBlank lines (j + 1) k
      else 0 := by
  show countNonBlankAux lines (k - j) j k = _
  cases h : k - j with
  | zero =>
    have hj : ¬ j < k := by omega
    simp only [countNonBlankAux]
    rw [if_neg hj]
  | succ n =>
    have hj : j < k := by omega
    simp only [countNonBlankAux]
    rw [if_pos hj, if_pos hj]
    show _ + countNonBlankAux lines n (j + 1) k = _ + countNonBlankAux lines (k - (j + 1)) (j + 1) k
    congr 2
    omega

/-! ### Step construction (lines 214–296 of the source) -/

/-- Building one `ChecklistStep` from a step-item match at main cursor
`i1` (the index after the step line): merges continuation lines, strips
dot leaders from the action, derives `is_conditional`, and applies the
numbering-form override of `indent_level`.  Returns the step and the new
main cursor. -/
def buildStep (lines : List (List Char)) (i1 : Nat) (r : ItemRes) : Step × Nat :=
  -- the whitespace-derived level (`len(indent) // 2`) is computed by the
  -- source but the numbering alternation always matched, so one of the
  -- three overrides below always replaces it
  let _indentLevel0 := r.indent.length / 2
  let instruction0 := stripL r.content
  let action0 := match r.action with | some a => stripL a | none => []
  let m := mergeCont lines.length lines i1 instruction0 action0
  let instr := m.1
  let act1 := m.2.1
  let i2 := i1 + m.2.2
  let act := if act1 ≠ [] then stripL (act1.filter (fun c => c ≠ '.')) else act1
  let isCond := startsWithAny (lowerL instr) [strL "if", strL "when", strL "verify"]
  let nl : Option (List Char) × Nat :=
    match r.num with
    | .digits ds => (some ds, 0)
    | .paren ds => (some ('(' :: (ds ++ [')'])), 2)
    | .letter c => (some [c], 1)
  (Step.mk instr act isCond nl.2 nl.1 [], i2)

/-! ### Scan loop (`parse_checklist`, lines 100–306) -/

/-- The guard of the CAS branch:
`if cas_match and (not current_checklist or not item_pattern.match(line))`. -/
def casCond (st : ScanState) (line : List Char) : Bool :=
  (casLineMatch line).isSome && (st.current.isNone || (itemMatch line).isNone)

/-- The CAS branch (lines 177–212).  `i1` is the already-advanced main
cursor; the branch may advance it once more when it consumes a repeated
CAS line or a qualifier-only follow-up line. -/
def processCas (lines : List (List Char)) (i1 : Nat) (st : ScanState)
    (line : List Char) : Nat × ScanState :=
  match casLineMatch line with
  | none => (i1, st)
  | some g =>
    let name := stripL g
    let r : Nat × Option (List Char) :=
      if containsSub (strL "Caution") line then (i1, some (strL "Caution"))
      else if containsSub (strL "Advisory") line then (i1, some (strL "Advisory"))
      else if i1 < lines.length then
        let next := stripAt lines i1
        if next = name then (i1 + 1, st.pendingCasType)
        else if containsSub (strL "Caution") next then (i1 + 1, some (strL "Caution"))
        else if containsSub (strL "Advisory") next then (i1 + 1, some (strL "Advisory"))
        else (i1, st.pendingCasType)
      else (i1, st.pendingCasType)
    match st.current with
    | some c =>
      (r.1, { st with current := some { c with cas := some name, casType := r.2 },
                      pendingCas := none, pendingCasType := none })
    | none =>
      (r.1, { st with pendingCas := some name, pendingCasType := r.2 })

/-- One iteration of the `while i < len(lines)` loop: classify line `i`
and dispatch; returns the next main cursor and the new state. -/
def processLine (lines : List (List Char)) (i : Nat) (st : ScanState) :
    Nat × ScanState :=
  let line := lineAt lines i
  let i1 := i + 1
  if line = [] then (i1, st)
  else
    match sectionMatch line with
    | some g => (i1, { st with curSection := some g })
    | none =>
      match subsectionMatch line with
      | some g => (i1, { st with curSubsection := some g })
      | none =>
        match checklistMatch line with
        | some g =>
          let st1 :=
            match st.current with
            | some c =>
              if c.steps.isEmpty then st
              else { st with checklists := st.checklists ++ [c] }
            | none => st
          let newC : Checklist :=
            { title := stripL g, sectionName := st.curSection.getD [],
              subsection := st.curSubsection,
              cas := st.pendingCas, casType := st.pendingCasType,
              casDescription := st.pendingCasDescription,
              alertMessage := st.pendingPfd, steps := [] }
          let st2 := { st1 with current := some newC }
          let st3 :=
            if truthy st.pendingCas || truthy st.pendingPfd then
              { st2 with pendingCas := none, pendingCasType := none,
                         pendingCasDescription := none, pendingPfd := none }
            else st2
          (i1, st3)
        | none =>
          match pfdMatch line with
          | some g =>
            let v := stripL g
            match st.current with
            | some c =>
              (i1, { st with current := some { c with alertMessage := some v },
                             pendingPfd := none })
            | none => (i1, { st with pendingPfd := some v })
          | none =>
            if casCond st line then processCas lines i1 st line
            else
              match itemMatch line with
              | some r =>
                match st.current with
                | some c =>
                  let s := buildStep lines i1 r
                  (s.2, { st with
                          current := some (addStepToHierarchy c s.1 s.1.indentLevel) })
                | none => (i1, st)
              | none => (i1, st)

/-- The scan loop; the fuel bounds the number of iterations, and
`lines.length` iterations always suffice because the cursor advances by
at least one per iteration. -/
def scanLoop : Nat → List (List Char) → Nat → ScanState → ScanState
  | 0, _, _, st => st
  | fuel + 1, lines, i, st =>
    if i < lines.length then
      let r := processLine lines i st
      scanLoop fuel lines r.1 r.2
    else st

def finalScanState (lines : List (List Char)) : ScanState :=
  scanLoop lines.length lines 0 initState

/-- `parse_checklist` restricted to its observable output: the ordered
list of produced checklists (lines 100–306; the trailing JSON write is
out of scope). -/
def parseChecklist (lines : List (List Char)) : List Checklist :=
  let st := finalScanState lines
  match st.current with
  | some c => if c.steps.isEmpty then st.checklists else st.checklists ++ [c]
  | none => st.checklists

/-! ### Validator (`validate_steps`) -/

mutual

/-- The per-step body of `validate_steps`: one issue for a missing
instruction, one when some sub-step's `indent_level` is less than or
equal to the step's own, plus the issues of the sub-steps. -/
def validateStep (s : Step) : Nat :=
  match s with
  | .mk instr _ _ lvl _ subs =>
    (if instr = [] then 1 else 0) +
    (if !subs.isEmpty && subs.any (fun b => b.indentLevel ≤ lvl) then 1 else 0) +
    validateStepsList subs

/-- `validate_steps` over a list of steps (the `checklist_title`
argument of the source is used only for log text and is dropped). -/
def validateStepsList (steps : List Step) : Nat :=
  match steps with
  | [] => 0
  | s :: rest => validateStep s + validateStepsList rest

end

/-! ### Structural well-formedness (the §3 hierarchy invariant) -/

mutual

/-- Every child of this step sits exactly one indent level deeper,
recursively. -/
def stepWfB : Step → Bool
  | .mk _ _ _ lvl _ subs => childrenOkB lvl subs

/-- The children check at a given parent level. -/
def childrenOkB : Nat → List Step → Bool
  | _, [] => true
  | lvl, s :: rest => (s.indentLevel == lvl + 1) && stepWfB s && childrenOkB lvl rest

end

/-- The hierarchy invariant for a whole checklist: every step of the
tree satisfies `stepWfB` (top-level steps carry no constraint of their
own). -/
def checklistWfB (c : Checklist) : Bool := c.steps.all stepWfB

mutual

/-- A step tree is clean for the validator: non-empty instruction and no
sub-step at an indent level less than or equal to the parent's,
recursively. -/
def stepCleanB : Step → Bool
  | .mk instr _ _ lvl _ subs =>
    (instr ≠ [] : Bool) && subs.all (fun b => lvl < b.indentLevel) &&
    stepsCleanB subs

def stepsCleanB : List Step → Bool
  | [] => true
  | s :: rest => stepCleanB s && stepsCleanB rest

end

/-! ### Character class lemmas -/

lemma not_pySpace_of_upper {c : Char} (h : isUpperAZ c = true) : pySpace c = false := by
  simp only [isUpperAZ, Bool.and_eq_true, decide_eq_true_eq] at h
  simp only [pySpace, Bool.or_eq_false_iff, decide_eq_false_iff_not]
  omega

lemma not_digit_of_upper {c : Char} (h : isUpperAZ c = true) : isDigit09 c = false := by
  simp only [isUpperAZ, Bool.and_eq_true, decide_eq_true_eq] at h
  simp only [isDigit09, Bool.and_eq_false_iff, decide_eq_false_iff_not]
  omega

lemma not_lower_of_upper {c : Char} (h : isUpperAZ c = true) : isLowerAZ c = false := by
  simp only [isUpperAZ, Bool.and_eq_true, decide_eq_true_eq] at h
  simp only [isLowerAZ, Bool.and_eq_false_iff, decide_eq_false_iff_not]
  omega

lemma ne_lparen_of_upper {c : Char} (h : isUpperAZ c = true) : c ≠ '(' := by
  intro he
  subst he
  exact absurd h (by decide)

lemma ne_hash_of_upper {c : Char} (h : isUpperAZ c = true) : c ≠ '#' := by
  intro he
  subst he
  exact absurd h (by decide)

/-! ### Matcher shape lemmas -/

lemma casLineMatch_shape {l g : List Char} (h : casLineMatch l = some g) :
    ∃ c t, l = c :: t ∧ isUpperAZ c = true := by
  match l with
  | [] => simp [casLineMatch] at h
  | c :: t =>
    refine ⟨c, t, rfl, ?_⟩
    by_contra hc
    simp only [Bool.not_eq_true] at hc
    simp [casLineMatch, hc] at h

lemma sectionMatch_none_of_not_hash {l : List Char} {c : Char} {t : List Char}
    (hl : l = c :: t) (hc : c ≠ '#') : sectionMatch l = none := by
  subst hl
  match t with
  | [] => rfl
  | c1 :: t1 => simp [sectionMatch, hc]

lemma subsectionMatch_none_of_not_hash {l : List Char} {c : Char} {t : List Char}
    (hl : l = c :: t) (hc : c ≠ '#') : subsectionMatch l = none := by
  subst hl
  match t with
  | [] => rfl
  | [c1] => rfl
  | c1 :: c2 :: t2 => simp [subsectionMatch, hc]

lemma checklistMatch_none_of_not_hash {l : List Char} {c : Char} {t : List Char}
    (hl : l = c :: t) (hc : c ≠ '#') : checklistMatch l = none := by
  subst hl
  match t with
  | [] => rfl
  | [c1] => rfl
  | c1 :: c2 :: t2 => simp [checklistMatch, hc]

lemma casLineMatch_nil : casLineMatch [] = none := rfl

lemma sectionMatch_shape {l g : List Char} (h : sectionMatch l = some g) :
    ∃ rest, l = '#' :: rest := by
  match l with
  | [] => simp [sectionMatch] at h
  | [c0] => simp [sectionMatch] at h
  | c0 :: c :: rest =>
    refine ⟨c :: rest, ?_⟩
    simp only [sectionMatch] at h
    split at h
    · rename_i hcond
      simp only [Bool.and_eq_true, decide_eq_true_eq] at hcond
      rw [hcond.1.1.1]
    · simp at h

lemma checklistMatch_shape {l g : List Char} (h : checklistMatch l = some g) :
    l = '#' :: '#' :: '#' :: g ∧ g ≠ [] := by
  match l with
  | [] => simp [checklistMatch] at h
  | [c0] => simp [checklistMatch] at h
  | [c0, c1] => simp [checklistMatch] at h
  | c0 :: c1 :: c2 :: rest =>
    simp only [checklistMatch] at h
    split at h
    · rename_i hcond
      simp only [Bool.and_eq_true, decide_eq_true_eq] at hcond
      cases h
      rw [hcond.1.1.1, hcond.1.1.2, hcond.1.2]
      exact ⟨rfl, hcond.2⟩
    · simp at h

lemma sectionMatch_hashhash (rest : List Char) :
    sectionMatch ('#' :: '#' :: rest) = none := by
  simp [sectionMatch, (by decide : isUpperAZ '#' = false)]

lemma subsectionMatch_hashhashhash (rest : List Char) :
    subsectionMatch ('#' :: '#' :: '#' :: rest) = none := by
  simp [subsectionMatch, (by decide : isUpperAZ '#' = false)]

/-- A tail that begins with a non-whitespace character other than `'A'`
is not a valid remainder after group 1 of the CAS line pattern. -/
lemma casTailOk_false_head {c : Char} (t : List Char)
    (h1 : pySpace c = false) (h2 : c ≠ 'A') : casTailOk (c :: t) = false := by
  have hA : strL "Advisory" = 'A' :: strL "dvisory" := by decide
  simp [casTailOk, hA, List.takeWhile_cons, h1, h2]

/-- A line matching the CAS message line pattern never matches the PFD
alert pattern: the PFD literal prefix `PFD Alerts Window: ` leaves no
valid group-1/tail decomposition for the CAS pattern (the maximal
`[A-Z0-9 ]` run from the start is `PFD A`, and none of the candidate
remainders is empty, `Advisory`, or whitespace followed by `Caution`). -/
lemma pfdMatch_none_of_cas {l g : List Char} (h : casLineMatch l = some g) :
    pfdMatch l = none := by
  by_cases hp : (strL "PFD Alerts Window: ").isPrefixOf l
  · exfalso
    have hpre : strL "PFD Alerts Window: " <+: l := by
      exact List.isPrefixOf_iff_prefix.mp hp
    obtain ⟨rest, hrest⟩ := hpre
    rw [← hrest] at h
    rw [show strL "PFD Alerts Window: " =
          'P' :: 'F' :: 'D' :: ' ' :: 'A' :: 'l' :: strL "erts Window: " from by decide] at h
    simp only [List.cons_append] at h
    rw [casLineMatch] at h
    rw [if_pos (by decide : isUpperAZ 'P' = true)] at h
    rw [show List.takeWhile casClass
          ('F' :: 'D' :: ' ' :: 'A' :: 'l' :: (strL "erts Window: " ++ rest)) =
          ['F', 'D', ' ', 'A'] from by
        simp [List.takeWhile_cons, (by decide : casClass 'F' = true),
          (by decide : casClass 'D' = true), (by decide : casClass ' ' = true),
          (by decide : casClass 'A' = true), (by decide : casClass 'l' = false)]] at h
    have h5 : ('P' :: 'F' :: 'D' :: ' ' :: 'A' :: 'l' ::
        (strL "erts Window: " ++ rest)).drop 5 = 'l' :: (strL "erts Window: " ++ rest) := rfl
    have h4 : ('P' :: 'F' :: 'D' :: ' ' :: 'A' :: 'l' ::
        (strL "erts Window: " ++ rest)).drop 4 =
        'A' :: 'l' :: (strL "erts Window: " ++ rest) := rfl
    have h3 : ('P' :: 'F' :: 'D' :: ' ' :: 'A' :: 'l' ::
        (strL "erts Window: " ++ rest)).drop 3 =
        ' ' :: 'A' :: 'l' :: (strL "erts Window: " ++ rest) := rfl
    have h2 : ('P' :: 'F' :: 'D' :: ' ' :: 'A' :: 'l' ::
        (strL "erts Window: " ++ rest)).drop 2 =
        'D' :: ' ' :: 'A' :: 'l' :: (strL "erts Window: " ++ rest) := rfl
    have t5 : casTailOk ('l' :: (strL "erts Window: " ++ rest)) = false :=
      casTailOk_false_head _ (by decide) (by decide)
    have t4 : casTailOk ('A' :: 'l' :: (strL "erts Window: " ++ rest)) = false := by
      have hA : strL "Advisory" = 'A' :: 'd' :: strL "visory" := by decide
      simp [casTailOk, hA, List.takeWhile_cons, (by decide : pySpace 'A' = false),
        (by decide : ('l' : Char) ≠ 'd')]
    have t3 : casTailOk (' ' :: 'A' :: 'l' :: (strL "erts Window: " ++ rest)) = false := by
      have hA : strL "Advisory" = 'A' :: strL "dvisory" := by decide
      have hC : strL "Caution" = 'C' :: strL "aution" := by decide
      simp [casTailOk, hA, hC, List.dropWhile_cons,
        (by decide : pySpace ' ' = true), (by decide : pySpace 'A' = false),
        (by decide : (' ' : Char) ≠ 'A'), (by decide : ('A' : Char) ≠ 'C')]
    have t2 : casTailOk ('D' :: ' ' :: 'A' :: 'l' :: (strL "erts Window: " ++ rest)) = false :=
      casTailOk_false_head _ (by decide) (by decide)
    rw [show (1 + (['F', 'D', ' ', 'A'] : List Char).length) = 5 from rfl] at h
    rw [show (5 : Nat) = 3 + 2 from rfl, casSearch, h5, t5] at h
    rw [show (3 + 1 : Nat) = 2 + 2 from rfl, casSearch, h4, t4] at h
    rw [show (2 + 1 : Nat) = 1 + 2 from rfl, casSearch, h3, t3] at h
    rw [show (1 + 1 : Nat) = 0 + 2 from rfl, casSearch, h2, t2] at h
    simp [casSearch] at h
  · simp [pfdMatch, hp]

/-- A line whose first character is an uppercase letter cannot match the
step-item pattern: `(\s*)` must end at the first character (uppercase is
not whitespace), and the numbering alternation needs a digit, `'('` or a
lowercase letter there. -/
lemma itemMatch_none_of_upper {c : Char} {t : List Char} (h : isUpperAZ c = true) :
    itemMatch (c :: t) = none := by
  have h1 : pySpace c = false := not_pySpace_of_upper h
  have h2 : isDigit09 c = false := not_digit_of_upper h
  have h3 : isLowerAZ c = false := not_lower_of_upper h
  have h4 : c ≠ '(' := ne_lparen_of_upper h
  simp [itemMatch, parseNum, List.dropWhile_cons, h1, h2, h3, h4]

/-! ### Dispatch lemmas: which branch of `processLine` handles a line -/

lemma processLine_section (lines : List (List Char)) (i : Nat) (st : ScanState)
    {g : List Char} (h : sectionMatch (lineAt lines i) = some g) :
    processLine lines i st = (i + 1, { st with curSection := some g }) := by
  obtain ⟨rest, hsh⟩ := sectionMatch_shape h
  have hne : lineAt lines i ≠ [] := by rw [hsh]; simp
  simp [processLine, h, hne]

lemma processLine_title (lines : List (List Char)) (i : Nat) (st : ScanState)
    {g : List Char} (h : checklistMatch (lineAt lines i) = some g) :
    processLine lines i st = (i + 1,
      { checklists := st.checklists ++
          (match st.current with
           | some c => if c.steps.isEmpty then [] else [c]
           | none => []),
        current := some
          { title := stripL g, sectionName := st.curSection.getD [],
            subsection := st.curSubsection, cas := st.pendingCas,
            casType := st.pendingCasType,
            casDescription := st.pendingCasDescription,
            alertMessage := st.pendingPfd, steps := [] },
        curSection := st.curSection, curSubsection := st.curSubsection,
        pendingCas :=
          if truthy st.pendingCas || truthy st.pendingPfd then none else st.pendingCas,
        pendingCasType :=
          if truthy st.pendingCas || truthy st.pendingPfd then none else st.pendingCasType,
        pendingCasDescription :=
          if truthy st.pendingCas || truthy st.pendingPfd then none
          else st.pendingCasDescription,
        pendingPfd :=
          if truthy st.pendingCas || truthy st.pendingPfd then none
          else st.pendingPfd }) := by
  obtain ⟨hsh, hg⟩ := checklistMatch_shape h
  have hne : lineAt lines i ≠ [] := by rw [hsh]; simp
  have hsec : sectionMatch (lineAt lines i) = none := by
    rw [hsh]; exact sectionMatch_hashhash _
  have hsub : subsectionMatch (lineAt lines i) = none := by
    rw [hsh]; exact subsectionMatch_hashhashhash _
  simp only [processLine, hne, hsec, hsub, h, ne_eq, not_false_eq_true, if_neg]
  rcases st.current with _ | c
  · by_cases ht : truthy st.pendingCas || truthy st.pendingPfd <;>
      simp [ht]
  · by_cases hs : c.steps.isEmpty <;>
      by_cases ht : truthy st.pendingCas || truthy st.pendingPfd <;>
      simp [hs, ht]

lemma processLine_inert (lines : List (List Char)) (i : Nat) (st : ScanState)
    (h1 : lineAt lines i ≠ [])
    (h2 : isStructural (lineAt lines i) = false) :
    processLine lines i st = (i + 1, st) := by
  simp only [isStructural, Bool.or_eq_false_iff] at h2
  obtain ⟨⟨⟨⟨⟨hs1, hs2⟩, hs3⟩, hs4⟩, hs5⟩, hs6⟩ := h2
  have e1 : sectionMatch (lineAt lines i) = none :=
    Option.not_isSome_iff_eq_none.mp (by simp [hs1])
  have e2 : subsectionMatch (lineAt lines i) = none :=
    Option.not_isSome_iff_eq_none.mp (by simp [hs2])
  have e3 : checklistMatch (lineAt lines i) = none :=
    Option.not_isSome_iff_eq_none.mp (by simp [hs3])
  have e4 : itemMatch (lineAt lines i) = none :=
    Option.not_isSome_iff_eq_none.mp (by simp [hs4])
  have e6 : pfdMatch (lineAt lines i) = none :=
    Option.not_isSome_iff_eq_none.mp (by simp [hs6])
  have e5 : casCond st (lineAt lines i) = false := by
    simp [casCond, hs5]
  simp [processLine, h1, e1, e2, e3, e4, e5, e6]

lemma processLine_casDispatch (lines : List (List Char)) (i : Nat) (st : ScanState)
    (h : casCond st (lineAt lines i) = true) :
    processLine lines i st = processCas lines (i + 1) st (lineAt lines i) := by
  have hsome : (casLineMatch (lineAt lines i)).isSome := by
    simp only [casCond, Bool.and_eq_true] at h
    exact h.1
  obtain ⟨g, hg⟩ := Option.isSome_iff_exists.mp hsome
  obtain ⟨c, t, hsh, hup⟩ := casLineMatch_shape hg
  have hne : lineAt lines i ≠ [] := by rw [hsh]; simp
  have hhash : c ≠ '#' := ne_hash_of_upper hup
  have e1 := sectionMatch_none_of_not_hash hsh hhash
  have e2 := subsectionMatch_none_of_not_hash hsh hhash
  have e3 := checklistMatch_none_of_not_hash hsh hhash
  have e4 := pfdMatch_none_of_cas hg
  simp [processLine, hne, e1, e2, e3, e4, h]

/-- C2.  In every scan state, a line the scan classifies as a CAS
message (i.e. the guard of the CAS branch holds, whether or not a
checklist is open) does not match the step-item pattern.  In the code
the item-shape exclusion is only tested when a checklist is open, but
the exclusion holds unconditionally because the two patterns are
disjoint: a CAS line starts with `[A-Z]`, a step-item line's first
non-whitespace character is a digit, `'('` or a lowercase letter. -/
theorem claim2_cas_classification_excludes_item_shape
    (st : ScanState) (line : List Char) (h : casCond st line = true) :
    itemMatch line = none := by
  have hsome : (casLineMatch line).isSome := by
    simp only [casCond, Bool.and_eq_true] at h
    exact h.1
  obtain ⟨g, hg⟩ := Option.isSome_iff_exists.mp hsome
  obtain ⟨c, t, hsh, hup⟩ := casLineMatch_shape hg
  rw [hsh]
  exact itemMatch_none_of_upper hup

/-- Witness for C2 at a concrete line and state. -/
theorem claim2_witness :
    casCond initState (strL "ENGINE FIRE") = true ∧
      itemMatch (strL "ENGINE FIRE") = none :=
  ⟨by decide,
   claim2_cas_classification_excludes_item_shape initState (strL "ENGINE FIRE") (by decide)⟩

/-! ### Further shape and dispatch lemmas -/

lemma subsectionMatch_shape {l g : List Char} (h : subsectionMatch l = some g) :
    ∃ rest, l = '#' :: '#' :: rest := by
  match l with
  | [] => simp [subsectionMatch] at h
  | [c0] => simp [subsectionMatch] at h
  | [c0, c1] => simp [subsectionMatch] at h
  | c0 :: c1 :: c :: rest =>
    refine ⟨c :: rest, ?_⟩
    simp only [subsectionMatch] at h
    split at h
    · rename_i hcond
      simp only [Bool.and_eq_true, decide_eq_true_eq] at hcond
      rw [hcond.1.1.1, hcond.1.1.2]
    · simp at h

lemma pfdMatch_shape {l g : List Char} (h : pfdMatch l = some g) :
    ∃ rest, l = 'P' :: rest := by
  unfold pfdMatch at h
  split at h
  · rename_i hp
    obtain ⟨rest, hrest⟩ := List.isPrefixOf_iff_prefix.mp hp
    rw [← hrest,
      show strL "PFD Alerts Window: " = 'P' :: strL "FD Alerts Window: " from by decide]
    exact ⟨_, rfl⟩
  · simp at h

lemma pfdMatch_none_of_head {l : List Char} {c : Char} {t : List Char}
    (hl : l = c :: t) (hc : c ≠ 'P') : pfdMatch l = none := by
  subst hl
  unfold pfdMatch
  rw [show strL "PFD Alerts Window: " = 'P' :: strL "FD Alerts Window: " from by decide]
  rw [if_neg]
  intro hp
  obtain ⟨rest, hrest⟩ := List.isPrefixOf_iff_prefix.mp hp
  simp only [List.cons_append] at hrest
  exact hc (List.cons.injEq .. ▸ hrest).1.symm

lemma itemMatch_shape {l : List Char} {r : ItemRes} (h : itemMatch l = some r) :
    ∃ c t, l = c :: t ∧
      (pySpace c || isDigit09 c || c = '(' || isLowerAZ c) = true := by
  match l with
  | [] => simp [itemMatch, parseNum] at h
  | c :: t =>
    refine ⟨c, t, rfl, ?_⟩
    by_contra hc
    simp only [Bool.or_eq_true, decide_eq_true_eq, not_or, Bool.not_eq_true] at hc
    obtain ⟨⟨⟨hc1, hc2⟩, hc3⟩, hc4⟩ := hc
    rw [itemMatch] at h
    rw [List.dropWhile_cons_of_neg (by simp [hc1])] at h
    have hp : parseNum (c :: t) = none := by simp [parseNum, hc2, hc3, hc4]
    rw [hp] at h
    simp at h

lemma itemHead_ne_hash_P {c : Char}
    (h : (pySpace c || isDigit09 c || c = '(' || isLowerAZ c) = true) :
    c ≠ '#' ∧ c ≠ 'P' := by
  simp only [Bool.or_eq_true, decide_eq_true_eq] at h
  constructor <;> intro he <;> subst he <;>
    simpa [pySpace, isDigit09, isLowerAZ] using h

lemma casLineMatch_none_of_item {l : List Char} {r : ItemRes}
    (h : itemMatch l = some r) : casLineMatch l = none := by
  cases hc : casLineMatch l with
  | none => rfl
  | some g =>
    obtain ⟨c, t, hsh, hup⟩ := casLineMatch_shape hc
    rw [hsh, itemMatch_none_of_upper hup] at h
    cases h

lemma casCond_of_casSome {st : ScanState} {l g : List Char}
    (h : casLineMatch l = some g) : casCond st l = true := by
  have hit : itemMatch l = none := by
    obtain ⟨c, t, hsh, hup⟩ := casLineMatch_shape h
    rw [hsh]
    exact itemMatch_none_of_upper hup
  simp [casCond, h, hit]

lemma processLine_blank (lines : List (List Char)) (i : Nat) (st : ScanState)
    (h : lineAt lines i = []) : processLine lines i st = (i + 1, st) := by
  simp [processLine, h]

lemma processLine_subsection (lines : List (List Char)) (i : Nat) (st : ScanState)
    {g : List Char} (h : subsectionMatch (lineAt lines i) = some g) :
    processLine lines i st = (i + 1, { st with curSubsection := some g }) := by
  obtain ⟨rest, hsh⟩ := subsectionMatch_shape h
  have hne : lineAt lines i ≠ [] := by rw [hsh]; simp
  have hsec : sectionMatch (lineAt lines i) = none := by
    rw [hsh]; exact sectionMatch_hashhash _
  simp [processLine, h, hne, hsec]

lemma processLine_pfd_open (lines : List (List Char)) (i : Nat) (st : ScanState)
    {g : List Char} {c : Checklist}
    (h : pfdMatch (lineAt lines i) = some g) (hc : st.current = some c) :
    processLine lines i st =
      (i + 1, { st with current := some { c with alertMessage := some (stripL g) },
                        pendingPfd := none }) := by
  obtain ⟨rest, hsh⟩ := pfdMatch_shape h
  have hne : lineAt lines i ≠ [] := by rw [hsh]; simp
  have hP : ('P' : Char) ≠ '#' := by decide
  have e1 := sectionMatch_none_of_not_hash hsh hP
  have e2 := subsectionMatch_none_of_not_hash hsh hP
  have e3 := checklistMatch_none_of_not_hash hsh hP
  simp [processLine, h, hne, e1, e2, e3, hc]

lemma processLine_pfd_pending (lines : List (List Char)) (i : Nat) (st : ScanState)
    {g : List Char}
    (h : pfdMatch (lineAt lines i) = some g) (hc : st.current = none) :
    processLine lines i st = (i + 1, { st with pendingPfd := some (stripL g) }) := by
  obtain ⟨rest, hsh⟩ := pfdMatch_shape h
  have hne : lineAt lines i ≠ [] := by rw [hsh]; simp
  have hP : ('P' : Char) ≠ '#' := by decide
  have e1 := sectionMatch_none_of_not_hash hsh hP
  have e2 := subsectionMatch_none_of_not_hash hsh hP
  have e3 := checklistMatch_none_of_not_hash hsh hP
  simp [processLine, h, hne, e1, e2, e3, hc]

lemma processLine_item_open (lines : List (List Char)) (i : Nat) (st : ScanState)
    {r : ItemRes} {c : Checklist}
    (h : itemMatch (lineAt lines i) = some r) (hc : st.current = some c) :
    processLine lines i st =
      ((buildStep lines (i + 1) r).2,
       { st with current := some (addStepToHierarchy c (buildStep lines (i + 1) r).1
                                   (buildStep lines (i + 1) r).1.indentLevel) }) := by
  obtain ⟨c0, t, hsh, hhead⟩ := itemMatch_shape h
  obtain ⟨hn1, hn2⟩ := itemHead_ne_hash_P hhead
  have hne : lineAt lines i ≠ [] := by rw [hsh]; simp
  have e1 := sectionMatch_none_of_not_hash hsh hn1
  have e2 := subsectionMatch_none_of_not_hash hsh hn1
  have e3 := checklistMatch_none_of_not_hash hsh hn1
  have e4 := pfdMatch_none_of_head hsh hn2
  have hcl : casLineMatch (lineAt lines i) = none :=
    casLineMatch_none_of_item h
  have e5 : casCond st (lineAt lines i) = false := by
    simp [casCond, hcl]
  simp [processLine, h, hne, e1, e2, e3, e4, e5, hcl, hc]

lemma processLine_item_closed (lines : List (List Char)) (i : Nat) (st : ScanState)
    {r : ItemRes}
    (h : itemMatch (lineAt lines i) = some r) (hc : st.current = none) :
    processLine lines i st = (i + 1, st) := by
  obtain ⟨c0, t, hsh, hhead⟩ := itemMatch_shape h
  obtain ⟨hn1, hn2⟩ := itemHead_ne_hash_P hhead
  have hne : lineAt lines i ≠ [] := by rw [hsh]; simp
  have e1 := sectionMatch_none_of_not_hash hsh hn1
  have e2 := subsectionMatch_none_of_not_hash hsh hn1
  have e3 := checklistMatch_none_of_not_hash hsh hn1
  have e4 := pfdMatch_none_of_head hsh hn2
  have hcl : casLineMatch (lineAt lines i) = none :=
    casLineMatch_none_of_item h
  have e5 : casCond st (lineAt lines i) = false := by
    simp [casCond, hcl]
  simp [processLine, h, hne, e1, e2, e3, e4, e5, hcl, hc]

/-- Totality of the line classification: every line falls into one of the
branch cases handled by the dispatch lemmas above. -/
lemma line_classify (line : List Char) :
    line = [] ∨ (∃ g, sectionMatch line = some g) ∨
    (∃ g, subsectionMatch line = some g) ∨ (∃ g, checklistMatch line = some g) ∨
    (∃ g, pfdMatch line = some g) ∨ (∃ g, casLineMatch line = some g) ∨
    (∃ r, itemMatch line = some r) ∨
    (line ≠ [] ∧ isStructural line = false) := by
  by_cases hb : line = []
  · exact Or.inl hb
  cases h1 : sectionMatch line with
  | some g => exact Or.inr (Or.inl ⟨g, rfl⟩)
  | none =>
  cases h2 : subsectionMatch line with
  | some g => exact Or.inr (Or.inr (Or.inl ⟨g, rfl⟩))
  | none =>
  cases h3 : checklistMatch line with
  | some g => exact Or.inr (Or.inr (Or.inr (Or.inl ⟨g, rfl⟩)))
  | none =>
  cases h4 : pfdMatch line with
  | some g => exact Or.inr (Or.inr (Or.inr (Or.inr (Or.inl ⟨g, rfl⟩))))
  | none =>
  cases h5 : casLineMatch line with
  | some g => exact Or.inr (Or.inr (Or.inr (Or.inr (Or.inr (Or.inl ⟨g, rfl⟩)))))
  | none =>
  cases h6 : itemMatch line with
  | some r =>
    exact Or.inr (Or.inr (Or.inr (Or.inr (Or.inr (Or.inr (Or.inl ⟨r, rfl⟩))))))
  | none =>
    refine Or.inr (Or.inr (Or.inr (Or.inr (Or.inr (Or.inr (Or.inr ⟨hb, ?_⟩))))))
    simp [isStructural, h1, h2, h3, h4, h5, h6]

/-- The CAS branch only rewrites `current`, `pendingCas` and
`pendingCasType`; `current` is either kept or gets its `cas`/`casType`
fields replaced. -/
lemma processCas_shape (lines : List (List Char)) (i1 : Nat) (st : ScanState)
    (line : List Char) :
    ∃ i2 cur pc pct,
      processCas lines i1 st line =
        (i2, { st with current := cur, pendingCas := pc, pendingCasType := pct }) ∧
      (cur = st.current ∨
        ∃ c nm ct, st.current = some c ∧ cur = some { c with cas := nm, casType := ct }) := by
  unfold processCas
  cases hm : casLineMatch line with
  | none =>
    refine ⟨i1, st.current, st.pendingCas, st.pendingCasType, ?_, Or.inl rfl⟩
    rfl
  | some g =>
    cases hc : st.current with
    | some c =>
      exact ⟨_, _, _, _, rfl, Or.inr ⟨c, _, _, rfl, rfl⟩⟩
    | none =>
      exact ⟨_, _, _, _, rfl, Or.inl rfl⟩

/-- `add_step_to_hierarchy` only rewrites the `steps` field. -/
lemma addStep_eq_steps_update (c : Checklist) (new : Step) (lvl : Nat) :
    ∃ s2, addStepToHierarchy c new lvl = { c with steps := s2 } := by
  unfold addStepToHierarchy
  split
  · exact ⟨_, rfl⟩
  split
  · exact ⟨_, rfl⟩
  split
  · exact ⟨_, rfl⟩
  · exact ⟨_, rfl⟩

/-- Invariants preserved by every scan step are preserved by the loop. -/
lemma scanLoop_inv (P : ScanState → Prop)
    (hstep : ∀ lines i st, P st → P (processLine lines i st).2) :
    ∀ fuel lines i st, P st → P (scanLoop fuel lines i st) := by
  intro fuel
  induction fuel with
  | zero => intro lines i st h; exact h
  | succ n ih =>
    intro lines i st h
    rw [scanLoop]
    split
    · exact ih _ _ _ (hstep _ _ _ h)
    · exact h

/-! ### Scan-wide invariants -/

/-- The pending CAS-description cell is never written, and no checklist
ever receives a `cas_description`. -/
def C9Inv (st : ScanState) : Prop :=
  st.pendingCasDescription = none ∧
  (∀ c ∈ st.checklists, c.casDescription = none) ∧
  (∀ c, st.current = some c → c.casDescription = none)

lemma processLine_pres_C9 (lines : List (List Char)) (i : Nat) (st : ScanState)
    (h : C9Inv st) : C9Inv (processLine lines i st).2 := by
  obtain ⟨hp, hcs, hcur⟩ := h
  rcases line_classify (lineAt lines i) with hb | ⟨g, hg⟩ | ⟨g, hg⟩ | ⟨g, hg⟩ | ⟨g, hg⟩ |
    ⟨g, hg⟩ | ⟨r, hr⟩ | ⟨hne, hns⟩
  · rw [processLine_blank lines i st hb]; exact ⟨hp, hcs, hcur⟩
  · rw [processLine_section lines i st hg]; exact ⟨hp, hcs, hcur⟩
  · rw [processLine_subsection lines i st hg]; exact ⟨hp, hcs, hcur⟩
  · rw [processLine_title lines i st hg]
    refine ⟨?_, ?_, ?_⟩
    · dsimp only
      split <;> simp [hp]
    · dsimp only
      intro c hc
      rcases List.mem_append.mp hc with hold | hnew
      · exact hcs c hold
      · rcases hcc : st.current with _ | c0
        · rw [hcc] at hnew; simp at hnew
        · rw [hcc] at hnew
          simp at hnew
          obtain ⟨h1, h2⟩ := hnew
          cases h2
          exact hcur _ hcc
    · dsimp only
      intro c hc
      cases hc
      exact hp
  · rcases hcc : st.current with _ | c0
    · rw [processLine_pfd_pending lines i st hg hcc]
      exact ⟨hp, hcs, hcur⟩
    · rw [processLine_pfd_open lines i st hg hcc]
      refine ⟨hp, hcs, ?_⟩
      intro c hc
      cases hc
      simpa using hcur c0 hcc
  · rw [processLine_casDispatch lines i st (casCond_of_casSome hg)]
    obtain ⟨i2, cur, pc, pct, heq, hor⟩ := processCas_shape lines (i + 1) st (lineAt lines i)
    rw [heq]
    refine ⟨hp, hcs, ?_⟩
    intro c hc
    dsimp only at hc
    rcases hor with hsame | ⟨c0, nm, ct, hc0, hcur2⟩
    · rw [hsame] at hc
      exact hcur c hc
    · rw [hcur2] at hc
      cases hc
      simpa using hcur c0 hc0
  · rcases hcc : st.current with _ | c0
    · rw [processLine_item_closed lines i st hr hcc]; exact ⟨hp, hcs, hcur⟩
    · rw [processLine_item_open lines i st hr hcc]
      refine ⟨hp, hcs, ?_⟩
      intro c hc
      cases hc
      obtain ⟨s2, hadd⟩ := addStep_eq_steps_update c0 (buildStep lines (i + 1) r).1
        (buildStep lines (i + 1) r).1.indentLevel
      rw [hadd]
      simpa using hcur c0 hcc
  · rw [processLine_inert lines i st hne hns]; exact ⟨hp, hcs, hcur⟩

/-- Every finished checklist has a non-empty top-level step list. -/
def C8Inv (st : ScanState) : Prop := ∀ c ∈ st.checklists, c.steps ≠ []

lemma processLine_pres_C8 (lines : List (List Char)) (i : Nat) (st : ScanState)
    (h : C8Inv st) : C8Inv (processLine lines i st).2 := by
  rcases line_classify (lineAt lines i) with hb | ⟨g, hg⟩ | ⟨g, hg⟩ | ⟨g, hg⟩ | ⟨g, hg⟩ |
    ⟨g, hg⟩ | ⟨r, hr⟩ | ⟨hne, hns⟩
  · rw [processLine_blank lines i st hb]; exact h
  · rw [processLine_section lines i st hg]; exact h
  · rw [processLine_subsection lines i st hg]; exact h
  · rw [processLine_title lines i st hg]
    intro c hc
    dsimp only at hc
    rcases List.mem_append.mp hc with hold | hnew
    · exact h c hold
    · rcases hcc : st.current with _ | c0
      · rw [hcc] at hnew; simp at hnew
      · rw [hcc] at hnew
        simp at hnew
        obtain ⟨h1, h2⟩ := hnew
        subst h2
        exact h1
  · rcases hcc : st.current with _ | c0
    · rw [processLine_pfd_pending lines i st hg hcc]; exact h
    · rw [processLine_pfd_open lines i st hg hcc]; exact h
  · rw [processLine_casDispatch lines i st (casCond_of_casSome hg)]
    obtain ⟨i2, cur, pc, pct, heq, hor⟩ := processCas_shape lines (i + 1) st (lineAt lines i)
    rw [heq]
    exact h
  · rcases hcc : st.current with _ | c0
    · rw [processLine_item_closed lines i st hr hcc]; exact h
    · rw [processLine_item_open lines i st hr hcc]; exact h
  · rw [processLine_inert lines i st hne hns]; exact h

/-! ### Claim theorems: C9, C8, C10, C4 -/

/-- C9.  The parser never assigns the pending CAS-description cell (it is
initialised to `None` and only ever read or reset), so every checklist in
any parse result has `cas_description` absent. -/
theorem claim9_cas_description_always_absent (lines : List (List Char))
    (c : Checklist) (hc : c ∈ parseChecklist lines) : c.casDescription = none := by
  have hinv : C9Inv (finalScanState lines) :=
    scanLoop_inv C9Inv processLine_pres_C9 lines.length lines 0 initState
      ⟨rfl, by simp [initState], by simp [initState]⟩
  obtain ⟨hp, hcs, hcur⟩ := hinv
  simp only [parseChecklist] at hc
  rcases hcc : (finalScanState lines).current with _ | c0
  · simp only [hcc] at hc
    exact hcs c hc
  · simp only [hcc] at hc
    split at hc
    · exact hcs c hc
    · rcases List.mem_append.mp hc with hold | hnew
      · exact hcs c hold
      · simp at hnew
        cases hnew
        exact hcur _ hcc

def witnessInput9 : List (List Char) := [strL "###T", strL "1. A ... B"]

def emptyChecklist : Checklist := { title := [], sectionName := [], subsection := none }

/-- Witness for C9 at a concrete parse. -/
theorem claim9_witness :
    ((parseChecklist witnessInput9).getD 0 emptyChecklist).casDescription = none :=
  claim9_cas_description_always_absent witnessInput9 _ (by
    have h : 0 < (parseChecklist witnessInput9).length := by decide
    rw [List.getD_eq_getElem?_getD, List.getElem?_eq_getElem h]
    exact List.getElem_mem h)

/-- C8.  A checklist appears in the parse result only if it accumulated
at least one top-level step (both when flushed by a later title line and
when flushed at end of scan), and the last open checklist with steps is
appended at end of scan. -/
theorem claim8_output_iff_nonempty_steps (lines : List (List Char)) :
    (∀ c ∈ parseChecklist lines, c.steps ≠ []) ∧
    (∀ c, (finalScanState lines).current = some c → c.steps ≠ [] →
      c ∈ parseChecklist lines) := by
  have hinv : C8Inv (finalScanState lines) :=
    scanLoop_inv C8Inv processLine_pres_C8 lines.length lines 0 initState
      (by intro c hc; simp [initState] at hc)
  constructor
  · intro c hc
    simp only [parseChecklist] at hc
    rcases hcc : (finalScanState lines).current with _ | c0
    · simp only [hcc] at hc
      exact hinv c hc
    · simp only [hcc] at hc
      split at hc
      · exact hinv c hc
      · rename_i hemp
        rcases List.mem_append.mp hc with hold | hnew
        · exact hinv c hold
        · simp at hnew
          subst hnew
          simpa using hemp
  · intro c hcc hsteps
    simp only [parseChecklist]
    simp only [hcc]
    rw [if_neg (by simpa using hsteps)]
    exact List.mem_append_right _ (by simp)

def witnessInput8 : List (List Char) :=
  [strL "###EMPTY ONE", strL "###T", strL "1. A ... B"]

/-- Witness for C8: a title with no steps is dropped, the final open
checklist with a step is kept. -/
theorem claim8_witness :
    ((parseChecklist witnessInput8).getD 0 emptyChecklist).steps ≠ [] ∧
      (∀ c, (finalScanState witnessInput8).current = some c → c.steps ≠ [] →
        c ∈ parseChecklist witnessInput8) :=
  ⟨(claim8_output_iff_nonempty_steps witnessInput8).1 _ (by
      have h : 0 < (parseChecklist witnessInput8).length := by decide
      rw [List.getD_eq_getElem?_getD, List.getElem?_eq_getElem h]
      exact List.getElem_mem h),
   (claim8_output_iff_nonempty_steps witnessInput8).2⟩

def sectionDemoInput : List (List Char) :=
  [strL "#ONE", strL "##Sub A", strL "###C1", strL "1. X ... Y",
   strL "#TWO", strL "###C2", strL "1. X ... Y"]

/-- C10.  A section header line rewrites only `current_section`:
`current_subsection` (and everything else) is left unchanged, so a
checklist created after a new section header but before any new
subsection header inherits the previous section's subsection, as the
concrete two-section parse shows. -/
theorem claim10_section_header_leaves_subsection (lines : List (List Char)) :
    (∀ i st g, sectionMatch (lineAt lines i) = some g →
      processLine lines i st = (i + 1, { st with curSection := some g })) ∧
    (parseChecklist sectionDemoInput).map (fun c => (c.sectionName, c.subsection)) =
      [(strL "ONE", some (strL "Sub A")), (strL "TWO", some (strL "Sub A"))] :=
  ⟨fun i st _ h => processLine_section lines i st h, by decide⟩

/-- Witness for C10's frame property at a concrete section line. -/
theorem claim10_witness :
    processLine [strL "#TWO"] 0
        ⟨[], none, some (strL "ONE"), some (strL "Sub A"), none, none, none, none⟩ =
      (1, ⟨[], none, some (strL "TWO"), some (strL "Sub A"), none, none, none, none⟩) :=
  (claim10_section_header_leaves_subsection [strL "#TWO"]).1 0
    ⟨[], none, some (strL "ONE"), some (strL "Sub A"), none, none, none, none⟩
    (strL "TWO") (by decide)

def pfdLeakInput : List (List Char) :=
  [strL "PFD Alerts Window: \" \"", strL "###A", strL "1. X ... Y",
   strL "###B", strL "1. X ... Y"]

def casClearInput : List (List Char) :=
  [strL "ENGINE FIRE", strL "ENGINE FIRE", strL "###T", strL "1. X ... Y",
   strL "###U", strL "1. X ... Y"]

/-- C4 counterexample.  The pending cells are NOT cleared regardless of
their contents: a whitespace-only quoted PFD alert leaves
`pending_pfd_alert = ""`, which is falsy, so the clearing guard
`if pending_cas or pending_pfd_alert` skips and the empty alert leaks
into the second checklist as well (the claim would force
`alertMessage = none` on the second checklist). -/
theorem claim4_counterexample :
    (parseChecklist pfdLeakInput).map Checklist.alertMessage = [some [], some []] ∧
      ((parseChecklist pfdLeakInput).getD 1 emptyChecklist).alertMessage ≠ none := by
  decide

/-- C4 amended.  On a checklist-title line the new checklist inherits all
four pending cells, and the cells are cleared exactly when `pending_cas`
or `pending_pfd_alert` is truthy (non-`None` and non-empty) — otherwise
they are left unchanged.  Since a CAS line always records a non-empty
name, the claim's consequence survives: with two consecutive checklists
where only the first is preceded by a CAS line, the second checklist has
`cas` absent. -/
theorem claim4_amended_pending_clear (lines : List (List Char)) :
    (∀ i st g, checklistMatch (lineAt lines i) = some g →
      (processLine lines i st).1 = i + 1 ∧
      (processLine lines i st).2.current = some
        { title := stripL g, sectionName := st.curSection.getD [],
          subsection := st.curSubsection, cas := st.pendingCas,
          casType := st.pendingCasType, casDescription := st.pendingCasDescription,
          alertMessage := st.pendingPfd, steps := [] } ∧
      ((truthy st.pendingCas || truthy st.pendingPfd) = true →
        (processLine lines i st).2.pendingCas = none ∧
        (processLine lines i st).2.pendingCasType = none ∧
        (processLine lines i st).2.pendingCasDescription = none ∧
        (processLine lines i st).2.pendingPfd = none) ∧
      ((truthy st.pendingCas || truthy st.pendingPfd) = false →
        (processLine lines i st).2.pendingCas = st.pendingCas ∧
        (processLine lines i st).2.pendingCasType = st.pendingCasType ∧
        (processLine lines i st).2.pendingCasDescription = st.pendingCasDescription ∧
        (processLine lines i st).2.pendingPfd = st.pendingPfd)) ∧
    (parseChecklist casClearInput).map Checklist.cas =
      [some (strL "ENGINE FIRE"), none] := by
  constructor
  · intro i st g h
    rw [processLine_title lines i st h]
    refine ⟨rfl, rfl, ?_, ?_⟩ <;> intro ht <;> simp [ht]
  · decide

/-- Witness for C4's amended clearing rule at a concrete state. -/
theorem claim4_witness :
    (processLine [strL "###T"] 0
        ⟨[], none, none, none, some (strL "OIL PRESSURE"), none, none, none⟩).2.pendingCas =
      none :=
  ((claim4_amended_pending_clear [strL "###T"]).1 0
      ⟨[], none, none, none, some (strL "OIL PRESSURE"), none, none, none⟩
      (strL "T") (by decide)).2.2.1 (by decide) |>.1

/-! ### C1: where the main cursor lands after continuation merging -/

lemma le_firstBreak_aux (lines : List (List Char)) :
    ∀ n j, lines.length - j ≤ n → j ≤ firstBreak lines j := by
  intro n
  induction n with
  | zero =>
    intro j h
    rw [firstBreak_eq]
    rw [if_neg (by omega)]
  | succ n ih =>
    intro j h
    rw [firstBreak_eq]
    split
    · split
      · exact Nat.le_refl j
      · have := ih (j + 1) (by omega)
        omega
    · exact Nat.le_refl j

lemma le_firstBreak (lines : List (List Char)) (j : Nat) : j ≤ firstBreak lines j :=
  le_firstBreak_aux lines (lines.length - j) j (Nat.le_refl _)

/-- The merge loop advances the main cursor by exactly the number of
non-blank lines strictly before the lookahead break position. -/
lemma mergeCont_delta :
    ∀ (fuel : Nat) (lines : List (List Char)) (j : Nat) (instr act : List Char),
      lines.length - j ≤ fuel →
      (mergeCont fuel lines j instr act).2.2 =
        countNonBlank lines j (firstBreak lines j) := by
  intro fuel
  induction fuel with
  | zero =>
    intro lines j instr act h
    have hj : ¬ j < lines.length := by omega
    show (0 : Nat) = _
    rw [firstBreak_eq]
    rw [if_neg hj]
    rw [countNonBlank_eq]
    rw [if_neg (by omega)]
  | succ n ih =>
    intro lines j instr act h
    by_cases hj : j < lines.length
    · by_cases hb : lineAt lines j = []
      · have hfb : firstBreak lines j = firstBreak lines (j + 1) := by
          conv_lhs => rw [firstBreak_eq]
          rw [hb, if_pos hj]
          rw [if_neg (by decide)]
        have hdelta : (mergeCont (n + 1) lines j instr act).2.2 =
            (mergeCont n lines (j + 1) instr act).2.2 := by
          simp only [mergeCont]
          rw [if_pos hj, hb]
          simp
        rw [hdelta, hfb, ih lines (j + 1) instr act (by omega)]
        have hlt : j < firstBreak lines (j + 1) := by
          have := le_firstBreak lines (j + 1)
          omega
        conv_rhs => rw [countNonBlank_eq]
        rw [if_pos hlt, hb]
        simp
      · by_cases hs : isStructural (lineAt lines j) = true
        · have hfb : firstBreak lines j = j := by
            rw [firstBreak_eq]
            rw [if_pos hj, if_pos hs]
          have hdelta : (mergeCont (n + 1) lines j instr act).2.2 = 0 := by
            simp only [mergeCont]
            rw [if_pos hj, if_neg hb, if_pos hs]
          rw [hdelta, hfb]
          rw [countNonBlank_eq]
          rw [if_neg (by omega)]
        · have hs2 : isStructural (lineAt lines j) = false := by
            simpa using hs
          have hfb : firstBreak lines j = firstBreak lines (j + 1) := by
            conv_lhs => rw [firstBreak_eq]
            rw [if_pos hj, hs2]
            simp
          have hdelta : (mergeCont (n + 1) lines j instr act).2.2 =
              (mergeCont n lines (j + 1)
                (foldContLine instr act (lineAt lines j)).1
                (foldContLine instr act (lineAt lines j)).2).2.2 + 1 := by
            simp only [mergeCont]
            rw [if_pos hj, if_neg hb, hs2]
            simp
          rw [hdelta, hfb, ih lines (j + 1) _ _ (by omega)]
          have hlt : j < firstBreak lines (j + 1) := by
            have := le_firstBreak lines (j + 1)
            omega
          conv_rhs => rw [countNonBlank_eq]
          rw [if_pos hlt, if_neg hb]
          omega
    · have hfb : firstBreak lines j = j := by
        rw [firstBreak_eq]
        rw [if_neg hj]
      have hdelta : (mergeCont (n + 1) lines j instr act).2.2 = 0 := by
        simp only [mergeCont]
        rw [if_neg hj]
      rw [hdelta, hfb]
      rw [countNonBlank_eq]
      rw [if_neg (by omega)]

lemma countNonBlank_all_nonblank (lines : List (List Char)) :
    ∀ n j k, k - j ≤ n → j ≤ k →
      (∀ m, j ≤ m → m < k → lineAt lines m ≠ []) →
      countNonBlank lines j k = k - j := by
  intro n
  induction n with
  | zero =>
    intro j k h hjk _
    rw [countNonBlank_eq]
    rw [if_neg (by omega)]
    omega
  | succ n ih =>
    intro j k h hjk hall
    by_cases hlt : j < k
    · rw [countNonBlank_eq]
      rw [if_pos hlt, if_neg (hall j (Nat.le_refl j) hlt)]
      rw [ih (j + 1) k (by omega) (by omega)
        (fun m hm1 hm2 => hall m (by omega) hm2)]
      omega
    · rw [countNonBlank_eq]
      rw [if_neg hlt]
      omega

def contGapInput : List (List Char) :=
  [strL "###T", strL "1. A ... B", strL "", strL "cont", strL "###U", strL "1. C ... D"]

def openTState : ScanState :=
  { checklists := [],
    current := some { title := strL "T", sectionName := [], subsection := none },
    curSection := none, curSubsection := none, pendingCas := none,
    pendingCasType := none, pendingCasDescription := none, pendingPfd := none }

/-- C1 counterexample.  With a blank line between a step and its
continuation line, the step handler resumes the main scan at index 3 —
the continuation line `cont`, which was already folded into the step's
instruction — not at index 4, the first structural token.  The lookahead
advances past the blank but the main cursor does not, so the claim's
"resumes at the first structural token / no folded line is ever
re-classified" is false on this input (the re-scanned folded line is
non-structural, so the claim's misstatement has no output effect). -/
theorem claim1_counterexample :
    (processLine contGapInput 1 openTState).1 = 3 ∧
    firstBreak contGapInput 2 = 4 ∧
    lineAt contGapInput 3 = strL "cont" ∧
    isStructural (strL "cont") = false ∧
    ((processLine contGapInput 1 openTState).2.current.map
      (fun c => c.steps.map Step.instruction)) = some [strL "A cont"] := by
  decide

/-- C1 amended.  (1) After a step at main cursor `i1`, the merge advances
the cursor by exactly the number of non-blank lines before the first
structural token; blank lines are skipped by the lookahead without being
counted.  (2) Hence when no blank line precedes the break, the scan
resumes exactly at the first structural token.  (3) A resumed-at folded
line is non-blank and non-structural, and the scan passes over any such
line without changing the state, so re-scanning is harmless. -/
theorem claim1_amended_merge_position :
    (∀ fuel lines j instr act, List.length lines - j ≤ fuel →
      (mergeCont fuel lines j instr act).2.2 =
        countNonBlank lines j (firstBreak lines j)) ∧
    (∀ fuel lines j instr act, List.length lines - j ≤ fuel →
      (∀ m, j ≤ m → m < firstBreak lines j → lineAt lines m ≠ []) →
      j + (mergeCont fuel lines j instr act).2.2 = firstBreak lines j) ∧
    (∀ lines i st, lineAt lines i ≠ [] → isStructural (lineAt lines i) = false →
      processLine lines i st = (i + 1, st)) := by
  refine ⟨fun fuel lines j instr act h => mergeCont_delta fuel lines j instr act h,
    ?_, fun lines i st h1 h2 => processLine_inert lines i st h1 h2⟩
  intro fuel lines j instr act h hall
  rw [mergeCont_delta fuel lines j instr act h]
  have hle := le_firstBreak lines j
  rw [countNonBlank_all_nonblank lines (firstBreak lines j - j) j (firstBreak lines j)
    (Nat.le_refl _) hle hall]
  omega

/-- Witness for C1's amended characterization at the counterexample
input. -/
theorem claim1_witness :
    (mergeCont 6 contGapInput 2 (strL "A") (strL "B")).2.2 =
      countNonBlank contGapInput 2 (firstBreak contGapInput 2) ∧
    4 + (mergeCont 6 contGapInput 4 (strL "C") (strL "D")).2.2 =
      firstBreak contGapInput 4 ∧
    processLine contGapInput 3 initState = (4, initState) :=
  ⟨claim1_amended_merge_position.1 6 contGapInput 2 (strL "A") (strL "B") (by decide),
   claim1_amended_merge_position.2.1 6 contGapInput 4 (strL "C") (strL "D")
     (by decide) (by decide),
   claim1_amended_merge_position.2.2 contGapInput 3 initState (by decide) (by decide)⟩

/-! ### C5: consumption of the repeated CAS line -/

def casRepeatInput : List (List Char) :=
  [strL "###T", strL "1. Fuel ... OFF", strL "ENGINE FIRE Caution", strL "ENGINE FIRE",
   strL "###U", strL "1. X ... Y"]

/-- C5 counterexample.  When the first CAS line itself carries the
`Caution` qualifier, the repeat-skip branch is never reached: the
verbatim repeat line is re-processed as a fresh CAS message and
overwrites the open checklist's `cas_type` (recorded as `Caution` by the
first line) with `None`.  The claim asserts the repeat is consumed and
alters nothing whether or not the first line carries the qualifier. -/
theorem claim5_counterexample :
    (parseChecklist casRepeatInput).map (fun c => (c.title, c.cas, c.casType)) =
      [(strL "T", some (strL "ENGINE FIRE"), none),
       (strL "U", none, none)] ∧
    ((parseChecklist casRepeatInput).getD 0 emptyChecklist).casType ≠
      some (strL "Caution") := by
  decide

/-- C5 amended.  When a CAS message line does NOT contain the literal
`Caution`/`Advisory` (the source tests the qualifier as a substring of
the whole line) and the immediately following line repeats the recorded
name verbatim (after stripping), the repeat line is consumed — the main
cursor advances by two — and exactly one CAS association results:
directly onto the open checklist, or into the pending cells when no
checklist is open. -/
theorem claim5_amended_repeat_consumed (lines : List (List Char)) (i : Nat)
    (st : ScanState) (g : List Char)
    (hcas : casLineMatch (lineAt lines i) = some g)
    (hq1 : containsSub (strL "Caution") (lineAt lines i) = false)
    (hq2 : containsSub (strL "Advisory") (lineAt lines i) = false)
    (hlen : i + 1 < lines.length)
    (hrep : stripAt lines (i + 1) = stripL g) :
    (processLine lines i st).1 = i + 2 ∧
    (∀ c, st.current = some c →
      (processLine lines i st).2 =
        { st with
            current :=
              some { c with cas := some (stripL g), casType := st.pendingCasType },
            pendingCas := none, pendingCasType := none }) ∧
    (st.current = none →
      (processLine lines i st).2 =
        { st with pendingCas := some (stripL g),
                  pendingCasType := st.pendingCasType }) := by
  have hdisp := processLine_casDispatch lines i st (casCond_of_casSome hcas)
  rcases hcc : st.current with _ | c
  · have hred : processLine lines i st =
        (i + 2, { st with pendingCas := some (stripL g),
                          pendingCasType := st.pendingCasType }) := by
      rw [hdisp]
      simp only [processCas, hcas, hcc]
      simp [hq1, hq2, hlen, hrep]
    rw [hred]
    refine ⟨rfl, ?_, ?_⟩
    · intro c hc
      simp at hc
    · intro _
      rw [hcc]
  · have hred : processLine lines i st =
        (i + 2,
         { st with
             current :=
               some { c with cas := some (stripL g), casType := st.pendingCasType },
             pendingCas := none, pendingCasType := none }) := by
      rw [hdisp]
      simp only [processCas, hcas, hcc]
      simp [hq1, hq2, hlen, hrep]
    rw [hred]
    refine ⟨rfl, ?_, ?_⟩
    · intro c2 hc2
      cases hc2
      rfl
    · intro hnone
      simp at hnone

def casPendingRepeatInput : List (List Char) :=
  [strL "OIL PRESSURE", strL "OIL PRESSURE", strL "###T", strL "1. X ... Y"]

/-- Witness for C5's amended statement: the repeat line is consumed (the
cursor jumps from 0 to 2) and one pending association results. -/
theorem claim5_witness :
    (processLine casPendingRepeatInput 0 initState).1 = 0 + 2 :=
  (claim5_amended_repeat_consumed casPendingRepeatInput 0 initState
    (strL "OIL PRESSURE") (by decide) (by decide) (by decide) (by decide)
    (by decide)).1

/-! ### C6: numbering form fixes the indent level; action dot-stripping -/

lemma mem_of_mem_dropWhile {p : Char → Bool} {c : Char} :
    ∀ {l : List Char}, c ∈ l.dropWhile p → c ∈ l := by
  intro l
  induction l with
  | nil => intro h; simpa using h
  | cons x t ih =>
    intro h
    rw [List.dropWhile_cons] at h
    split at h
    · exact List.mem_cons_of_mem x (ih h)
    · exact h

lemma mem_dropWhile_of_mem {p : Char → Bool} {c : Char} {l : List Char}
    (hc : c ∈ l) (hp : p c = false) : c ∈ l.dropWhile p := by
  induction l with
  | nil => simpa using hc
  | cons x t ih =>
    rw [List.dropWhile_cons]
    rcases List.mem_cons.mp hc with rfl | hmem
    · rw [hp]
      simpa using List.mem_cons_self c t
    · split
      · exact ih hmem
      · exact List.mem_cons_of_mem x hmem

lemma mem_of_mem_stripL {c : Char} {l : List Char} (h : c ∈ stripL l) : c ∈ l := by
  unfold stripL rstripL at h
  have h1 := mem_of_mem_dropWhile h
  rw [List.mem_reverse] at h1
  have h2 := mem_of_mem_dropWhile h1
  rwa [List.mem_reverse] at h2

lemma mem_stripL_of_mem {c : Char} {l : List Char} (hc : c ∈ l)
    (hp : pySpace c = false) : c ∈ stripL l := by
  unfold stripL rstripL
  refine mem_dropWhile_of_mem ?_ hp
  rw [List.mem_reverse]
  exact mem_dropWhile_of_mem (List.mem_reverse.mpr hc) hp

lemma stripL_ne_nil {c : Char} {l : List Char} (hc : c ∈ l)
    (hp : pySpace c = false) : stripL l ≠ [] :=
  List.ne_nil_of_mem (mem_stripL_of_mem hc hp)

/-- The merge loop does nothing when the very next line already breaks
the lookahead (end of input or a structural token). -/
lemma mergeCont_stop (fuel : Nat) (lines : List (List Char)) (j : Nat)
    (instr act : List Char)
    (h : lines.length ≤ j ∨ isStructural (lineAt lines j) = true) :
    mergeCont fuel lines j instr act = (instr, act, 0) := by
  cases fuel with
  | zero => rfl
  | succ n =>
    rcases h with hj | hs
    · simp only [mergeCont]
      rw [if_neg (by omega)]
    · have hne : lineAt lines j ≠ [] := by
        intro he
        rw [he] at hs
        exact absurd hs (by decide)
      simp only [mergeCont]
      split
      · simp [hne, hs]
      · rfl

/-- C6.  The numbering form always overrides the whitespace-derived
indent: plain digits give level 0 (with `step_number` the digit run),
a lowercase letter gives level 1, parenthesized digits give level 2 —
the captured leading whitespace `r.indent` does not appear in the
conclusion at all.  After dot-leader stripping the action never contains
a dot, and for a step line with an action part holding at least one
non-dot, non-whitespace character (and no continuation lines), the
produced action is non-empty. -/
theorem claim6_numbering_overrides_indent (lines : List (List Char)) (i1 : Nat)
    (line : List Char) (r : ItemRes) (_hm : itemMatch line = some r) :
    ((∀ ds, r.num = NumForm.digits ds →
        (buildStep lines i1 r).1.indentLevel = 0 ∧
        (buildStep lines i1 r).1.stepNumber = some ds) ∧
     (∀ ch, r.num = NumForm.letter ch →
        (buildStep lines i1 r).1.indentLevel = 1 ∧
        (buildStep lines i1 r).1.stepNumber = some [ch]) ∧
     (∀ ds, r.num = NumForm.paren ds →
        (buildStep lines i1 r).1.indentLevel = 2 ∧
        (buildStep lines i1 r).1.stepNumber = some ('(' :: (ds ++ [')'])))) ∧
    (∀ ch ∈ (buildStep lines i1 r).1.action, ch ≠ '.') ∧
    (∀ a, r.action = some a →
      (lines.length ≤ i1 ∨ isStructural (lineAt lines i1) = true) →
      (∃ ch ∈ a, pySpace ch = false ∧ ch ≠ '.') →
      (buildStep lines i1 r).1.action ≠ []) := by
  refine ⟨⟨?_, ?_, ?_⟩, ?_, ?_⟩
  · intro ds hds
    simp [buildStep, hds, Step.indentLevel, Step.stepNumber]
  · intro ch hch
    simp [buildStep, hch, Step.indentLevel, Step.stepNumber]
  · intro ds hds
    simp [buildStep, hds, Step.indentLevel, Step.stepNumber]
  · intro ch hch
    simp only [buildStep, Step.action] at hch
    split at hch
    · rename_i hne
      intro he
      subst he
      have := mem_of_mem_stripL hch
      simp at this
    · rename_i hne
      simp only [ne_eq, Decidable.not_not] at hne
      rw [hne] at hch
      simp at hch
  · intro a ha hstop hex
    obtain ⟨ch, hch, hsp, hdot⟩ := hex
    simp only [buildStep, ha, Step.action]
    rw [mergeCont_stop lines.length lines i1 (stripL r.content) (stripL a) hstop]
    have hact : stripL a ≠ [] := stripL_ne_nil hch hsp
    rw [if_pos ?_]
    · refine stripL_ne_nil (c := ch) ?_ hsp
      refine List.mem_filter.mpr ⟨mem_stripL_of_mem hch hsp, by simp [hdot]⟩
    · simpa using hact

/-- Witness for C6 on the step line `"  1. Fuel Selector ... OFF"` (two
characters of literal leading whitespace, digit numbering). -/
theorem claim6_witness :
    (buildStep [] 0 ⟨strL "  ", NumForm.digits ['1'], strL "Fuel Selector ",
        some (strL "OFF")⟩).1.indentLevel = 0 ∧
    (buildStep [] 0 ⟨strL "  ", NumForm.digits ['1'], strL "Fuel Selector ",
        some (strL "OFF")⟩).1.stepNumber = some ['1'] ∧
    (buildStep [] 0 ⟨strL "  ", NumForm.digits ['1'], strL "Fuel Selector ",
        some (strL "OFF")⟩).1.action ≠ [] := by
  have h := claim6_numbering_overrides_indent [] 0 (strL "  1. Fuel Selector ... OFF")
    ⟨strL "  ", NumForm.digits ['1'], strL "Fuel Selector ", some (strL "OFF")⟩
    (by decide)
  exact ⟨(h.1.1 ['1'] rfl).1, (h.1.1 ['1'] rfl).2,
    h.2.2 (strL "OFF") rfl (Or.inl (by decide)) (by decide)⟩

/-! ### C7: what the validator reports -/

mutual

theorem validateStep_zero_iff (s : Step) :
    validateStep s = 0 ↔ stepCleanB s = true := by
  cases s with
  | mk instr act cond lvl num subs =>
    have hrec := validateStepsList_zero_iff subs
    simp only [validateStep, stepCleanB]
    constructor
    · intro h
      have h1 : (if instr = [] then 1 else 0) = 0 := by omega
      have h2 : (if !subs.isEmpty && subs.any (fun b => b.indentLevel ≤ lvl)
          then 1 else 0) = 0 := by omega
      have h3 : validateStepsList subs = 0 := by omega
      have hi : instr ≠ [] := by
        intro he
        rw [if_pos he] at h1
        cases h1
      have hany : (!subs.isEmpty && subs.any (fun b => b.indentLevel ≤ lvl)) = false := by
        by_contra hcon
        rw [if_pos (by simpa using hcon)] at h2
        cases h2
      have hall : subs.all (fun b => lvl < b.indentLevel) = true := by
        rcases Bool.and_eq_false_iff.mp hany with hemp | hnoany
        · have : subs = [] := by simpa using hemp
          subst this
          rfl
        · rw [List.all_eq_true]
          intro b hb
          rw [List.any_eq_false] at hnoany
          have := hnoany b hb
          simp only [decide_eq_true_eq] at this ⊢
          omega
      simp [hi, hall, hrec.mp h3]
    · intro h
      simp only [Bool.and_eq_true] at h
      obtain ⟨⟨hi, hall⟩, hclean⟩ := h
      rw [if_neg (by simpa using hi)]
      have hany : (!subs.isEmpty && subs.any (fun b => b.indentLevel ≤ lvl)) = false := by
        rcases hsubs : subs with _ | ⟨x, xs⟩
        · rfl
        · rw [Bool.and_eq_false_iff]
          right
          rw [List.any_eq_false]
          intro b hb
          rw [List.all_eq_true] at hall
          have := hall b (hsubs ▸ hb)
          simp only [decide_eq_true_eq] at this ⊢
          omega
      rw [hany]
      simp [hrec.mpr hclean]

theorem validateStepsList_zero_iff (l : List Step) :
    validateStepsList l = 0 ↔ stepsCleanB l = true := by
  cases l with
  | nil => simp [validateStepsList, stepsCleanB]
  | cons s rest =>
    have h1 := validateStep_zero_iff s
    have h2 := validateStepsList_zero_iff rest
    simp only [validateStepsList, stepsCleanB, Bool.and_eq_true]
    constructor
    · intro h
      exact ⟨h1.mp (by omega), h2.mp (by omega)⟩
    · intro ⟨ha, hb⟩
      rw [h1.mpr ha, h2.mpr hb]

end

def deepJumpStep : Step :=
  Step.mk (strL "Check") (strL "ON") false 0 none
    [Step.mk (strL "Sub") (strL "OFF") false 2 none []]

/-- C7 counterexample.  A step at indent level 0 with a child at indent
level 2 violates the parent+1 discipline (`stepWfB` is false), yet
`validate_steps` reports zero issues: its check only fires for children
at an indent level less than or equal to the parent's, never for
children more than one level deeper. -/
theorem claim7_counterexample :
    validateStepsList [deepJumpStep] = 0 ∧ stepWfB deepJumpStep = false := by
  decide

/-- C7 amended.  The validator's issue count is zero exactly when every
step in the forest has a non-empty instruction and no child at an indent
level less than or equal to its own; children more than one level deeper
than their parent are never reported.  (In this pure embedding the
validator returns only a count, so it cannot mutate the tree.) -/
theorem claim7_amended_validator_reports (steps : List Step) :
    validateStepsList steps = 0 ↔ stepsCleanB steps = true :=
  validateStepsList_zero_iff steps

/-! ### C3: the hierarchy invariant -/

lemma childrenOkB_iff (lvl : Nat) (l : List Step) :
    childrenOkB lvl l = true ↔
      ∀ s ∈ l, s.indentLevel = lvl + 1 ∧ stepWfB s = true := by
  induction l with
  | nil => simp [childrenOkB]
  | cons x xs ih =>
    simp only [childrenOkB, Bool.and_eq_true, beq_iff_eq]
    constructor
    · intro ⟨⟨h1, h2⟩, h3⟩ s hs
      rcases List.mem_cons.mp hs with rfl | hmem
      · exact ⟨h1, h2⟩
      · exact ih.mp h3 s hmem
    · intro h
      exact ⟨⟨(h x (List.mem_cons_self x xs)).1, (h x (List.mem_cons_self x xs)).2⟩,
        ih.mpr fun s hs => h s (List.mem_cons_of_mem x hs)⟩

mutual

theorem findParent_pres (p new : Step) (t : Nat) (hp : stepWfB p = true)
    (hn : stepWfB new = true) (ht : new.indentLevel = t) (p2 : Step)
    (h : findParentAndAddStep p new t = some p2) :
    stepWfB p2 = true ∧ p2.indentLevel = p.indentLevel := by
  cases p with
  | mk a b c lvl num subs =>
    simp only [stepWfB] at hp
    simp only [findParentAndAddStep] at h
    split at h
    · rename_i hbeq
      cases h
      have hlvl : lvl + 1 = t := by simpa using hbeq
      constructor
      · simp only [stepWfB]
        rw [childrenOkB_iff]
        intro s hs
        rcases List.mem_append.mp hs with hs1 | hs2
        · exact (childrenOkB_iff lvl subs).mp hp s hs1
        · simp at hs2
          subst hs2
          exact ⟨by omega, hn⟩
      · simp [Step.indentLevel]
    · split at h
      · rename_i subs2 htry
        cases h
        have hsubs : ∀ s ∈ subs, stepWfB s = true :=
          fun s hs => ((childrenOkB_iff lvl subs).mp hp s hs).2
        obtain ⟨hall2, hmap⟩ := tryAddRev_pres subs new t hsubs hn ht subs2 htry
        constructor
        · simp only [stepWfB]
          rw [childrenOkB_iff]
          intro s hs
          refine ⟨?_, hall2 s hs⟩
          have hmem : s.indentLevel ∈ subs2.map Step.indentLevel :=
            List.mem_map_of_mem Step.indentLevel hs
          rw [hmap] at hmem
          obtain ⟨s0, hs0, heq⟩ := List.mem_map.mp hmem
          have h0 := ((childrenOkB_iff lvl subs).mp hp s0 hs0).1
          omega
        · simp [Step.indentLevel]
      · cases h

theorem tryAddRev_pres (l : List Step) (new : Step) (t : Nat)
    (hl : ∀ s ∈ l, stepWfB s = true) (hn : stepWfB new = true)
    (ht : new.indentLevel = t) (l2 : List Step)
    (h : tryAddRevSteps l new t = some l2) :
    (∀ s ∈ l2, stepWfB s = true) ∧
      l2.map Step.indentLevel = l.map Step.indentLevel := by
  cases l with
  | nil => simp [tryAddRevSteps] at h
  | cons x xs =>
    simp only [tryAddRevSteps] at h
    split at h
    · rename_i xs2 htry
      cases h
      obtain ⟨h1, h2⟩ := tryAddRev_pres xs new t
        (fun s hs => hl s (List.mem_cons_of_mem x hs)) hn ht xs2 htry
      constructor
      · intro s hs
        rcases List.mem_cons.mp hs with rfl | hmem
        · exact hl s (List.mem_cons_self s xs)
        · exact h1 s hmem
      · simp [h2]
    · split at h
      · rename_i x2 hfp
        cases h
        obtain ⟨h1, h2⟩ := findParent_pres x new t (hl x (List.mem_cons_self x xs))
          hn ht x2 hfp
        constructor
        · intro s hs
          rcases List.mem_cons.mp hs with rfl | hmem
          · exact h1
          · exact hl s (List.mem_cons_of_mem x hmem)
        · simp [h2]
      · cases h

end

/-- The step built from a step-item match is a leaf, hence trivially
well-formed. -/
lemma buildStep_wf (lines : List (List Char)) (i1 : Nat) (r : ItemRes) :
    stepWfB (buildStep lines i1 r).1 = true := rfl

lemma addStep_pres_wf (c : Checklist) (new : Step) (lvl : Nat)
    (hc : checklistWfB c = true) (hn : stepWfB new = true)
    (ht : new.indentLevel = lvl) :
    checklistWfB (addStepToHierarchy c new lvl) = true := by
  have happend : (c.steps ++ [new]).all stepWfB = true := by
    rw [List.all_append]
    simp only [checklistWfB] at hc
    simp [hc, hn]
  unfold addStepToHierarchy
  split
  · simpa [checklistWfB] using happend
  split
  · simpa [checklistWfB] using happend
  split
  · rename_i steps2 htry
    have hl : ∀ s ∈ c.steps, stepWfB s = true := by
      simpa [checklistWfB, List.all_eq_true] using hc
    obtain ⟨h1, _⟩ := tryAddRev_pres c.steps new lvl hl hn ht steps2 htry
    simp only [checklistWfB, List.all_eq_true]
    exact h1
  · simpa [checklistWfB] using happend

/-- Every checklist the scan holds satisfies the hierarchy invariant. -/
def C3Inv (st : ScanState) : Prop :=
  (∀ c ∈ st.checklists, checklistWfB c = true) ∧
  (∀ c, st.current = some c → checklistWfB c = true)

lemma processLine_pres_C3 (lines : List (List Char)) (i : Nat) (st : ScanState)
    (h : C3Inv st) : C3Inv (processLine lines i st).2 := by
  obtain ⟨hcs, hcur⟩ := h
  rcases line_classify (lineAt lines i) with hb | ⟨g, hg⟩ | ⟨g, hg⟩ | ⟨g, hg⟩ | ⟨g, hg⟩ |
    ⟨g, hg⟩ | ⟨r, hr⟩ | ⟨hne, hns⟩
  · rw [processLine_blank lines i st hb]; exact ⟨hcs, hcur⟩
  · rw [processLine_section lines i st hg]; exact ⟨hcs, hcur⟩
  · rw [processLine_subsection lines i st hg]; exact ⟨hcs, hcur⟩
  · rw [processLine_title lines i st hg]
    constructor
    · dsimp only
      intro c hc
      rcases List.mem_append.mp hc with hold | hnew
      · exact hcs c hold
      · rcases hcc : st.current with _ | c0
        · rw [hcc] at hnew; simp at hnew
        · rw [hcc] at hnew
          simp at hnew
          obtain ⟨h1, h2⟩ := hnew
          cases h2
          exact hcur _ hcc
    · dsimp only
      intro c hc
      cases hc
      rfl
  · rcases hcc : st.current with _ | c0
    · rw [processLine_pfd_pending lines i st hg hcc]
      exact ⟨hcs, hcur⟩
    · rw [processLine_pfd_open lines i st hg hcc]
      refine ⟨hcs, ?_⟩
      intro c hc
      cases hc
      simpa [checklistWfB] using hcur c0 hcc
  · rw [processLine_casDispatch lines i st (casCond_of_casSome hg)]
    obtain ⟨i2, cur, pc, pct, heq, hor⟩ := processCas_shape lines (i + 1) st (lineAt lines i)
    rw [heq]
    refine ⟨hcs, ?_⟩
    intro c hc
    dsimp only at hc
    rcases hor with hsame | ⟨c0, nm, ct, hc0, hcur2⟩
    · rw [hsame] at hc
      exact hcur c hc
    · rw [hcur2] at hc
      cases hc
      simpa [checklistWfB] using hcur c0 hc0
  · rcases hcc : st.current with _ | c0
    · rw [processLine_item_closed lines i st hr hcc]; exact ⟨hcs, hcur⟩
    · rw [processLine_item_open lines i st hr hcc]
      refine ⟨hcs, ?_⟩
      intro c hc
      cases hc
      exact addStep_pres_wf c0 (buildStep lines (i + 1) r).1
        (buildStep lines (i + 1) r).1.indentLevel (hcur c0 hcc)
        (buildStep_wf lines (i + 1) r) rfl
  · rw [processLine_inert lines i st hne hns]; exact ⟨hcs, hcur⟩

/-- C3.  In every produced checklist, every step of the step tree has
only children whose `indent_level` is exactly its own plus one
(`checklistWfB` states this recursively for the whole tree): the
hierarchy builder only ever attaches a new step under a node whose level
is exactly one less, and every fallback appends at top level, which
creates no parent-child edge. -/
theorem claim3_children_one_level_deeper (lines : List (List Char))
    (c : Checklist) (hc : c ∈ parseChecklist lines) : checklistWfB c = true := by
  have hinv : C3Inv (finalScanState lines) :=
    scanLoop_inv C3Inv processLine_pres_C3 lines.length lines 0 initState
      ⟨by simp [initState], by simp [initState]⟩
  obtain ⟨hcs, hcur⟩ := hinv
  simp only [parseChecklist] at hc
  rcases hcc : (finalScanState lines).current with _ | c0
  · simp only [hcc] at hc
    exact hcs c hc
  · simp only [hcc] at hc
    split at hc
    · exact hcs c hc
    · rcases List.mem_append.mp hc with hold | hnew
      · exact hcs c hold
      · simp at hnew
        cases hnew
        exact hcur _ hcc

def witnessInput3 : List (List Char) :=
  [strL "#EMERGENCY", strL "###ENGINE FIRE", strL "1. Fuel Selector ... OFF",
   strL "a. Mixture ... IDLE CUTOFF", strL "(1) Power Lever ... IDLE"]

/-- Witness for C3 at a three-level concrete parse. -/
theorem claim3_witness :
    checklistWfB ((parseChecklist witnessInput3).getD 0 emptyChecklist) = true :=
  claim3_children_one_level_deeper witnessInput3 _ (by
    have h : 0 < (parseChecklist witnessInput3).length := by decide
    rw [List.getD_eq_getElem?_getD, List.getElem?_eq_getElem h]
    exact List.getElem_mem h)

end AlertSim
